import Mathlib

/-!
Shallow embedding of the tictactoe game engine (`src/board.rs`, `src/cell.rs`,
`src/error.rs`, `src/app.rs`) and proofs about the specification's claims.

Modelling conventions:
* `usize` values are `Nat`; the Rust cast `as usize` applied to an `isize`
  wraps modulo `2^64`, modelled by `usizeWrap`.
* Rust's panicking index `self.cells[id]` inside `Board::set` is modelled with
  `List.get?`: the whole operation returns `none` when the index is out of
  bounds (a panic).  Inside the win scanner every index is guarded, so plain
  `List.getD` is used there.
* Fallible operations return `Except Error _`.
-/

set_option maxRecDepth 4000

deriving instance DecidableEq for Except

/-- Cell value (`src/board.rs`, also `src/cell.rs`): Cross, Circle or Empty. -/
inductive Cell where
  | Cross : Cell
  | Circle : Cell
  | Empty : Cell
deriving DecidableEq

/-- Turn-advance function `Cell::next`. -/
def Cell.next : Cell → Cell
  | Cell.Cross => Cell.Circle
  | _ => Cell.Cross

/-- Payload of the `IO` error variant (`std::io::Error`, external to the repo;
its content is irrelevant to the claims and abstracted to a message). -/
structure IoError where
  msg : String
deriving DecidableEq

/-- Error type of the program (`src/error.rs`): exactly the variants
`IO(std::io::Error)`, `Msg(String)` and `Exit`.  The Rust variant `IO` is
spelled `Io` here. -/
inductive Error where
  | Io : IoError → Error
  | Msg : String → Error
  | Exit : Error
deriving DecidableEq

/-- Constructor tag of an error value: `0` for `IO`, `1` for `Msg`, `2` for
`Exit`.  Two errors are of the same kind iff their tags agree. -/
def errKind : Error → Nat
  | Error.Io _ => 0
  | Error.Msg _ => 1
  | Error.Exit => 2

/-- Coordinate pair (`termint::geometry::Coords`, fields `x` and `y` of type
`usize`). -/
structure Coords where
  x : Nat
  y : Nat
deriving DecidableEq

/-- The wrap-around conversion of a Rust `isize` value to `usize`
(`as usize`): reduction modulo `2^64`. -/
def usizeWrap (i : Int) : Nat := (i % (2 ^ 64 : Int)).toNat

/-- Board state (`src/board.rs`): cells in row-major order, cursor, size,
win length, cached winning segment and cached game state (`None` while the
game is in progress, `Some(c)` when `c` won, `Some(Empty)` for a draw). -/
structure Board where
  cells : List Cell
  selected : Coords
  size : Coords
  win_len : Nat
  win : Option (Coords × (Int × Int))
  state : Option Cell
deriving DecidableEq

/-- Cell lookup at row-major index `x + y * W` (in-bounds at every use site,
so the default value is never observed). -/
def cellAt (b : Board) (x y : Nat) : Cell :=
  b.cells.getD (x + y * b.size.x) Cell.Empty

/-- Stepping of the loop variables of `Board::check_win`:
`x = (x as isize + xd) as usize; y = (y as isize + yd) as usize`. -/
def wstep (xd yd : Int) (p : Nat × Nat) : Nat × Nat :=
  (usizeWrap ((p.1 : Int) + xd), usizeWrap ((p.2 : Int) + yd))

/-- Loop of `Board::check_win` (`for _ in 1..win_len`): check the current
cell, step, recurse; the fuel is the number of remaining iterations. -/
def checkWinGo (b : Board) (cell : Cell) (xd yd : Int) :
    Nat → Nat × Nat → Bool
  | 0, _ => true
  | Nat.succ n, p =>
      if cellAt b p.1 p.2 ≠ cell then false
      else checkWinGo b cell xd yd n (wstep xd yd p)

/-- `Board::check_win`: reads the origin cell, steps once, then compares the
remaining `win_len - 1` cells along the direction against the origin. -/
def Board.check_win (b : Board) (x y : Nat) (xd yd : Int) : Bool :=
  checkWinGo b (cellAt b x y) xd yd (b.win_len - 1) (wstep xd yd (x, y))

/-- Direction checks of one iteration of the scan in `Board::check_state`,
in the code's order with the code's bounds guards: `(1,0)` under
`x + win_len ≤ W`; then under `y + win_len ≤ H`: `(0,1)`, `(1,1)` under
`x + win_len ≤ W`, and `(-1,1)` under `x + 1 ≥ win_len`.  Returns the first
direction whose `check_win` succeeds. -/
def scanCell (b : Board) (x y : Nat) : Option (Int × Int) :=
  if x + b.win_len ≤ b.size.x ∧ b.check_win x y 1 0 = true then
    some (1, 0)
  else if y + b.win_len ≤ b.size.y then
    if b.check_win x y 0 1 = true then some (0, 1)
    else if x + b.win_len ≤ b.size.x ∧ b.check_win x y 1 1 = true then
      some (1, 1)
    else if b.win_len ≤ x + 1 ∧ b.check_win x y (-1) 1 = true then
      some (-1, 1)
    else none
  else none

/-- Row-major traversal order of the scan (`for y in 0..H { for x in 0..W }`),
as the list of `(x, y)` pairs. -/
def rowMajor (w h : Nat) : List (Nat × Nat) :=
  (List.range h).flatMap fun y => (List.range w).map fun x => (x, y)

/-- Body of `Board::check_state`: walk the remaining positions threading the
`draw` flag; an empty cell clears the flag, a winning cell returns the state
and the new winning segment immediately, and the end of the scan yields
`Some(Empty)` (draw) or `None` (in progress) with `win` unchanged. -/
def scanGo (b : Board) : List (Nat × Nat) → Bool →
    Option Cell × Option (Coords × (Int × Int))
  | [], draw => (if draw then some Cell.Empty else none, b.win)
  | (x, y) :: rest, draw =>
      if cellAt b x y = Cell.Empty then scanGo b rest false
      else
        match scanCell b x y with
        | some d => (some (cellAt b x y), some (⟨x, y⟩, d))
        | none => scanGo b rest draw

/-- `Board::check_state`: returns the pair (new `state`, new `win`); the
second component models the mutation of `self.win` done by `check_win`. -/
def Board.check_state (b : Board) : Option Cell × Option (Coords × (Int × Int)) :=
  scanGo b (rowMajor b.size.x b.size.y) true

/-- `Board::new`. -/
def Board.new (width height win_len : Nat) : Board where
  cells := List.replicate (width * height) Cell.Empty
  selected := ⟨0, 0⟩
  size := ⟨width, height⟩
  win_len := win_len
  win := none
  state := none

/-- `Board::restart`: empties the cells and clears state and win, keeping
`selected` and the configuration. -/
def Board.restart (b : Board) : Board :=
  { b with cells := List.replicate (b.size.x * b.size.y) Cell.Empty
           state := none
           win := none }

/-- `Board::set`: placement of `cell` at `(x, y)`.  `none` models the panic
of the out-of-bounds index `self.cells[id]`; otherwise the pair holds the
board after the call and the returned `Result<(), Error>`. -/
def Board.set (b : Board) (cell : Cell) (x y : Nat) :
    Option (Board × Except Error Unit) :=
  if b.state.isSome then some (b, Except.error (Error.Msg "game ended"))
  else
    match b.cells.get? (x + y * b.size.x) with
    | none => none
    | some Cell.Empty =>
        let b1 : Board := { b with cells := b.cells.set (x + y * b.size.x) cell }
        some ({ b1 with state := b1.check_state.1, win := b1.check_state.2 },
              Except.ok ())
    | some _ => some (b, Except.error (Error.Msg "Not empty cell"))

/-- Board produced by the successful branch of `Board::set`: the cell is
written at the flat index and `state`/`win` are recomputed by the scanner on
the written cells. -/
def setWrite (b : Board) (cell : Cell) (x y : Nat) : Board :=
  let b1 : Board := { b with cells := b.cells.set (x + y * b.size.x) cell }
  { b1 with state := b1.check_state.1, win := b1.check_state.2 }

/-- `Board::set_selected`. -/
def Board.set_selected (b : Board) (cell : Cell) :
    Option (Board × Except Error Unit) :=
  b.set cell b.selected.x b.selected.y

/-- `Board::select`. -/
def Board.select (b : Board) (coords : Coords) : Board :=
  { b with selected := coords }

/-- `Board::up`: `selected.y = selected.y.saturating_sub(1)`. -/
def Board.up (b : Board) : Board :=
  { b with selected := ⟨b.selected.x, b.selected.y - 1⟩ }

/-- `Board::down`: `selected.y = min(selected.y + 1, size.y - 1)`. -/
def Board.down (b : Board) : Board :=
  { b with selected := ⟨b.selected.x, min (b.selected.y + 1) (b.size.y - 1)⟩ }

/-- `Board::left`: `selected.x = selected.x.saturating_sub(1)`. -/
def Board.left (b : Board) : Board :=
  { b with selected := ⟨b.selected.x - 1, b.selected.y⟩ }

/-- `Board::right`: `selected.x = min(selected.x + 1, size.x - 1)`. -/
def Board.right (b : Board) : Board :=
  { b with selected := ⟨min (b.selected.x + 1) (b.size.x - 1), b.selected.y⟩ }

/-- Either board produced by a `set` call: the updated board on a normal
return, the unchanged board when the call errors out, and (for convenience of
building example plays) the unchanged board on the panic case. -/
def setB (b : Board) (c : Cell) (x y : Nat) : Board :=
  match b.set c x y with
  | some p => p.1
  | none => b

/-- Board after a sequence of `set` calls. -/
def foldSetB (b : Board) (ops : List (Cell × Nat × Nat)) : Board :=
  ops.foldl (fun b o => setB b o.1 o.2.1 o.2.2) b

/-- The four cursor movement operations. -/
inductive MoveOp where
  | up : MoveOp
  | down : MoveOp
  | left : MoveOp
  | right : MoveOp

/-- Application of one cursor movement. -/
def applyMove (b : Board) : MoveOp → Board
  | MoveOp.up => b.up
  | MoveOp.down => b.down
  | MoveOp.left => b.left
  | MoveOp.right => b.right

/-- Modelled from the spec: §4.2 states that on success `set` "returns the
new terminal state".  The `src/board.rs` in the tree returns `Ok(())`, while
its caller `src/app.rs` matches the result against `Ok(Option<Cell>)`; the
successful return value is therefore missing from `src` and is modelled from
the spec as the freshly recomputed cached state.  The board transition and
the error cases are exactly those of `Board.set`. -/
def Board.setRet (b : Board) (cell : Cell) (x y : Nat) :
    Option (Board × Except Error (Option Cell)) :=
  match b.set cell x y with
  | none => none
  | some (b', Except.ok _) => some (b', Except.ok b'.state)
  | some (b', Except.error e) => some (b', Except.error e)

/-- State-returning variant of `set_selected`, used by `App::key_handler`. -/
def Board.setSelectedRet (b : Board) (cell : Cell) :
    Option (Board × Except Error (Option Cell)) :=
  b.setRet cell b.selected.x b.selected.y

/-- App controller state (`src/app.rs`): the board, whose turn it is and the
score pair (the terminal handle is irrelevant to the claims). -/
structure App where
  board : Board
  player : Cell
  score : Nat × Nat
deriving DecidableEq

/-- Enter branch of `App::key_handler`: place the current player's mark at
the cursor; on `Ok(Some(Cross))` bump the cross score, on `Ok(Some(Circle))`
bump the circle score, on `Ok(Some(Empty))` (draw) bump both, on `Ok(None)`
advance the turn, and do nothing extra on `Err(_)`.  `none` models the panic
propagated out of `Board::set`. -/
def App.enterKey (a : App) : Option App :=
  match a.board.setSelectedRet a.player with
  | none => none
  | some (b', r) =>
      match r with
      | Except.ok (some Cell.Cross) =>
          some { a with board := b', score := (a.score.1 + 1, a.score.2) }
      | Except.ok (some Cell.Circle) =>
          some { a with board := b', score := (a.score.1, a.score.2 + 1) }
      | Except.ok (some Cell.Empty) =>
          some { a with board := b', score := (a.score.1 + 1, a.score.2 + 1) }
      | Except.ok none =>
          some { a with board := b', player := a.player.next }
      | Except.error _ => some { a with board := b' }

/-- The four scan directions, in the order the scanner tries them. -/
def dirList : List (Int × Int) := [(1, 0), (0, 1), (1, 1), (-1, 1)]

/-- Index of a direction in the scanner's fixed order. -/
def dirIdx (d : Int × Int) : Nat :=
  if d = (1, 0) then 0
  else if d = (0, 1) then 1
  else if d = (1, 1) then 2
  else 3

/-- The `i`-th cell of a run starting at `(x, y)` with direction `d`, in
exact (signed) coordinates. -/
def runPos (x y : Nat) (d : Int × Int) (i : Nat) : Int × Int :=
  ((x : Int) + (i : Int) * d.1, (y : Int) + (i : Int) * d.2)

/-- A signed coordinate pair lies on the `W × H` grid. -/
def InB (b : Board) (p : Int × Int) : Prop :=
  0 ≤ p.1 ∧ p.1 < (b.size.x : Int) ∧ 0 ≤ p.2 ∧ p.2 < (b.size.y : Int)

/-- Cell lookup at signed coordinates (used only at in-bounds points). -/
def cellAtI (b : Board) (x y : Int) : Cell :=
  b.cells.getD (x.toNat + y.toNat * b.size.x) Cell.Empty

/-- All `win_len` cells of the run starting at `(x, y)` with direction `d`
are on the grid and hold the same mark as the origin. -/
def RunCells (b : Board) (x y : Nat) (d : Int × Int) : Prop :=
  ∀ i < b.win_len,
    InB b (runPos x y d i) ∧
    cellAtI b (runPos x y d i).1 (runPos x y d i).2 = cellAt b x y

/-- An in-bounds run of `win_len` identical non-Empty marks in one of the
four scan directions, starting at `(x, y)`. -/
def IsRun (b : Board) (x y : Nat) (d : Int × Int) : Prop :=
  d ∈ dirList ∧ cellAt b x y ≠ Cell.Empty ∧ RunCells b x y d

/-- No cell of the grid is Empty. -/
def NoEmptyCell (b : Board) : Prop :=
  ∀ x < b.size.x, ∀ y < b.size.y, cellAt b x y ≠ Cell.Empty

/-- Scan rank of a candidate winning segment: position in row-major order
first, direction order second.  Smaller rank = visited earlier. -/
def scanRank (b : Board) (x y : Nat) (d : Int × Int) : Nat :=
  (x + y * b.size.x) * 4 + dirIdx d

/-- Soundness property of the stored win segment for winner `c`: the
segment exists, uses one of the four scan directions, and its `win_len`
cells are all on the grid and all hold `c`. -/
def WinSound (b : Board) (c : Cell) : Prop :=
  ∃ o d, b.win = some (o, d) ∧ d ∈ dirList ∧
    ∀ i < b.win_len,
      InB b (runPos o.x o.y d i) ∧
      cellAtI b (runPos o.x o.y d i).1 (runPos o.x o.y d i).2 = c

/-- Boards reachable by legal play: created by `new` with the spec's
preconditions `W, H, K ≥ 3` (and the Rust allocation bound — `vec!` aborts
when the byte size of the buffer exceeds `isize::MAX`, so a live board's
cell count is below `2^63`), then evolved by the public operations.  A `set`
call contributes its post-state whether it succeeds or errors. -/
inductive Reachable : Board → Prop where
  | new {w h k : Nat} : 3 ≤ w → 3 ≤ h → 3 ≤ k → w * h < 2 ^ 63 →
      Reachable (Board.new w h k)
  | set {b : Board} {c : Cell} {x y : Nat} {p : Board × Except Error Unit} :
      Reachable b → b.set c x y = some p → Reachable p.1
  | restart {b : Board} : Reachable b → Reachable b.restart
  | move {b : Board} {m : MoveOp} : Reachable b → Reachable (applyMove b m)
  | select {b : Board} {c : Coords} : Reachable b →
      c.x < b.size.x → c.y < b.size.y → Reachable (b.select c)

/-- Structural well-formedness maintained by legal play. -/
def WF (b : Board) : Prop :=
  b.cells.length = b.size.x * b.size.y ∧
  b.size.x * b.size.y < 2 ^ 63 ∧
  3 ≤ b.size.x ∧ 3 ≤ b.size.y ∧ 3 ≤ b.win_len

/-- Cursor is on the grid. -/
def SelInBounds (b : Board) : Prop :=
  b.selected.x < b.size.x ∧ b.selected.y < b.size.y

/-- Example play: four alternating placements on a 3×3 board, one move away
from a Cross win on the top row. -/
def bFour : Board :=
  setB (setB (setB (setB (Board.new 3 3 3)
    Cell.Cross 0 0) Cell.Circle 0 1) Cell.Cross 1 0) Cell.Circle 1 1

/-- Example play: Cross takes the whole top row of a 3×3 board. -/
def bTopRow : Board := setB bFour Cell.Cross 2 0

/-- Board one placement away from the top-row win, cursor on the winning
cell. -/
def bPre : Board := Board.select bFour ⟨2, 0⟩

instance (b : Board) (p : Int × Int) : Decidable (InB b p) := by
  unfold InB
  infer_instance

instance (b : Board) (x y : Nat) (d : Int × Int) :
    Decidable (RunCells b x y d) := by
  unfold RunCells
  infer_instance

instance (b : Board) (x y : Nat) (d : Int × Int) :
    Decidable (IsRun b x y d) := by
  unfold IsRun
  infer_instance

/-- Board with one occupied cell at the origin, game in progress. -/
def bOcc : Board := setB (Board.new 3 3 3) Cell.Cross 0 0

/-- App about to play the winning move of the top row. -/
def aCE : App := ⟨bPre, Cell.Cross, (0, 0)⟩

/-- Fresh app on a 3×3 board. -/
def aNew : App := ⟨Board.new 3 3 3, Cell.Cross, (0, 0)⟩

/-- Expected result of one Enter on the fresh app: the mark is placed at the
cursor `(0, 0)` and the turn passes to Circle. -/
def aNext : App := ⟨setB (Board.new 3 3 3) Cell.Cross 0 0, Cell.Circle, (0, 0)⟩

/-! ## Characterization of `check_win` -/

lemma usizeWrap_eq {i : Int} (h0 : 0 ≤ i) (h1 : i < 2 ^ 64) :
    usizeWrap i = i.toNat := by
  unfold usizeWrap
  rw [Int.emod_eq_of_lt h0 h1]

lemma checkWinGo_iff (b : Board) (cell : Cell) (xd yd : Int) :
    ∀ (n : Nat) (p : Nat × Nat),
      (checkWinGo b cell xd yd n p = true ↔
        ∀ i < n, cellAt b ((wstep xd yd)^[i] p).1 ((wstep xd yd)^[i] p).2 = cell)
  | 0, p => by simp [checkWinGo]
  | Nat.succ n, p => by
      unfold checkWinGo
      by_cases h : cellAt b p.1 p.2 = cell
      · rw [if_neg (by simpa using h)]
        rw [checkWinGo_iff b cell xd yd n (wstep xd yd p)]
        constructor
        · intro hall i hi
          match i with
          | 0 => simpa using h
          | Nat.succ i =>
              rw [Function.iterate_succ_apply]
              exact hall i (by omega)
        · intro hall i hi
          rw [← Function.iterate_succ_apply]
          exact hall (i + 1) (by omega)
      · rw [if_pos (by simpa using h)]
        constructor
        · intro hf
          exact absurd hf (by simp)
        · intro hall
          exact absurd (by simpa using hall 0 (Nat.succ_pos n)) h

lemma wstep_iterate (xd yd : Int) (x y : Nat) :
    ∀ (n : Nat),
      (∀ j ≤ n, 0 ≤ (x : Int) + j * xd ∧ (x : Int) + j * xd < 2 ^ 64 ∧
        0 ≤ (y : Int) + j * yd ∧ (y : Int) + j * yd < 2 ^ 64) →
      (wstep xd yd)^[n] (x, y) =
        (((x : Int) + n * xd).toNat, ((y : Int) + n * yd).toNat)
  | 0, _ => by simp
  | Nat.succ n, hb => by
      rw [Function.iterate_succ_apply',
        wstep_iterate xd yd x y n (fun j hj => hb j (by omega))]
      obtain ⟨hx0, _, hy0, _⟩ := hb n (by omega)
      obtain ⟨hx0', hx1', hy0', hy1'⟩ := hb (n + 1) (le_refl _)
      unfold wstep
      simp only
      rw [Int.toNat_of_nonneg hx0, Int.toNat_of_nonneg hy0]
      have ex : (x : Int) + n * xd + xd = (x : Int) + (n + 1 : Nat) * xd := by
        push_cast; ring
      have ey : (y : Int) + n * yd + yd = (y : Int) + (n + 1 : Nat) * yd := by
        push_cast; ring
      rw [ex, ey, usizeWrap_eq hx0' hx1', usizeWrap_eq hy0' hy1']

lemma check_win_iff (b : Board) (x y : Nat) (xd yd : Int)
    (hb : ∀ j < b.win_len, 0 ≤ (x : Int) + j * xd ∧ (x : Int) + j * xd < 2 ^ 64 ∧
      0 ≤ (y : Int) + j * yd ∧ (y : Int) + j * yd < 2 ^ 64) :
    (b.check_win x y xd yd = true ↔
      ∀ i < b.win_len,
        cellAtI b ((x : Int) + i * xd) ((y : Int) + i * yd) = cellAt b x y) := by
  rw [Board.check_win, checkWinGo_iff]
  constructor
  · intro hl i hi
    match i with
    | 0 => simp [cellAtI, cellAt]
    | Nat.succ i =>
        have h1 := hl i (by omega)
        rw [← Function.iterate_succ_apply,
          wstep_iterate xd yd x y (i + 1) (fun j hj => hb j (by omega))] at h1
        simpa [cellAtI, cellAt] using h1
  · intro hr i hi
    rw [← Function.iterate_succ_apply,
      wstep_iterate xd yd x y (i + 1) (fun j hj => hb j (by omega))]
    have h1 := hr (i + 1) (by omega)
    simpa [cellAtI, cellAt] using h1

/-! ## The four directions: bounds guards and runs -/

lemma size_le_area (b : Board) (hx : 0 < b.size.x) (hy : 0 < b.size.y) :
    b.size.x ≤ b.size.x * b.size.y ∧ b.size.y ≤ b.size.x * b.size.y :=
  ⟨Nat.le_mul_of_pos_right _ hy, Nat.le_mul_of_pos_left _ hx⟩

lemma runCells_hor (b : Board) (x y : Nat) (hx : x < b.size.x)
    (hy : y < b.size.y) (hsz : b.size.x * b.size.y < 2 ^ 63) :
    RunCells b x y (1, 0) ↔
      (x + b.win_len ≤ b.size.x ∧ b.check_win x y 1 0 = true) := by
  obtain ⟨hW, hH⟩ := size_le_area b (by omega) (by omega)
  have hguard : (x + b.win_len ≤ b.size.x) ↔
      ∀ j < b.win_len, InB b (runPos x y (1, 0) j) := by
    unfold InB runPos
    simp only [mul_one, mul_zero, add_zero]
    constructor
    · intro hg j hj
      refine ⟨by push_cast; omega, by push_cast; omega,
        by push_cast; omega, by push_cast; omega⟩
    · intro hin
      rcases Nat.eq_zero_or_pos b.win_len with h0 | hpos
      · omega
      · have h1 := (hin (b.win_len - 1) (by omega)).2.1
        push_cast at h1
        omega
  have hb : x + b.win_len ≤ b.size.x →
      ∀ j < b.win_len, 0 ≤ (x : Int) + j * 1 ∧ (x : Int) + j * 1 < 2 ^ 64 ∧
        0 ≤ (y : Int) + j * 0 ∧ (y : Int) + j * 0 < 2 ^ 64 := by
    intro hg j hj
    refine ⟨by push_cast; omega, by push_cast; omega,
      by push_cast; omega, by push_cast; omega⟩
  constructor
  · intro hr
    have hg := hguard.mpr fun j hj => (hr j hj).1
    refine ⟨hg, (check_win_iff b x y 1 0 (hb hg)).mpr ?_⟩
    intro i hi
    simpa [runPos] using (hr i hi).2
  · rintro ⟨hg, hw⟩
    intro i hi
    refine ⟨hguard.mp hg i hi, ?_⟩
    simpa [runPos] using (check_win_iff b x y 1 0 (hb hg)).mp hw i hi

lemma runCells_ver (b : Board) (x y : Nat) (hx : x < b.size.x)
    (hy : y < b.size.y) (hsz : b.size.x * b.size.y < 2 ^ 63) :
    RunCells b x y (0, 1) ↔
      (y + b.win_len ≤ b.size.y ∧ b.check_win x y 0 1 = true) := by
  obtain ⟨hW, hH⟩ := size_le_area b (by omega) (by omega)
  have hguard : (y + b.win_len ≤ b.size.y) ↔
      ∀ j < b.win_len, InB b (runPos x y (0, 1) j) := by
    unfold InB runPos
    simp only [mul_one, mul_zero, add_zero]
    constructor
    · intro hg j hj
      refine ⟨by push_cast; omega, by push_cast; omega,
        by push_cast; omega, by push_cast; omega⟩
    · intro hin
      rcases Nat.eq_zero_or_pos b.win_len with h0 | hpos
      · omega
      · have h1 := (hin (b.win_len - 1) (by omega)).2.2.2
        push_cast at h1
        omega
  have hb : y + b.win_len ≤ b.size.y →
      ∀ j < b.win_len, 0 ≤ (x : Int) + j * 0 ∧ (x : Int) + j * 0 < 2 ^ 64 ∧
        0 ≤ (y : Int) + j * 1 ∧ (y : Int) + j * 1 < 2 ^ 64 := by
    intro hg j hj
    refine ⟨by push_cast; omega, by push_cast; omega,
      by push_cast; omega, by push_cast; omega⟩
  constructor
  · intro hr
    have hg := hguard.mpr fun j hj => (hr j hj).1
    refine ⟨hg, (check_win_iff b x y 0 1 (hb hg)).mpr ?_⟩
    intro i hi
    simpa [runPos] using (hr i hi).2
  · rintro ⟨hg, hw⟩
    intro i hi
    refine ⟨hguard.mp hg i hi, ?_⟩
    simpa [runPos] using (check_win_iff b x y 0 1 (hb hg)).mp hw i hi

lemma runCells_diag (b : Board) (x y : Nat) (hx : x < b.size.x)
    (hy : y < b.size.y) (hsz : b.size.x * b.size.y < 2 ^ 63) :
    RunCells b x y (1, 1) ↔
      (x + b.win_len ≤ b.size.x ∧ y + b.win_len ≤ b.size.y ∧
        b.check_win x y 1 1 = true) := by
  obtain ⟨hW, hH⟩ := size_le_area b (by omega) (by omega)
  have hguard : (x + b.win_len ≤ b.size.x ∧ y + b.win_len ≤ b.size.y) ↔
      ∀ j < b.win_len, InB b (runPos x y (1, 1) j) := by
    unfold InB runPos
    simp only [mul_one, mul_zero, add_zero]
    constructor
    · intro hg j hj
      refine ⟨by push_cast; omega, by push_cast; omega,
        by push_cast; omega, by push_cast; omega⟩
    · intro hin
      rcases Nat.eq_zero_or_pos b.win_len with h0 | hpos
      · omega
      · have h1 := (hin (b.win_len - 1) (by omega)).2.1
        have h2 := (hin (b.win_len - 1) (by omega)).2.2.2
        push_cast at h1 h2
        omega
  have hb : x + b.win_len ≤ b.size.x → y + b.win_len ≤ b.size.y →
      ∀ j < b.win_len, 0 ≤ (x : Int) + j * 1 ∧ (x : Int) + j * 1 < 2 ^ 64 ∧
        0 ≤ (y : Int) + j * 1 ∧ (y : Int) + j * 1 < 2 ^ 64 := by
    intro hg1 hg2 j hj
    refine ⟨by push_cast; omega, by push_cast; omega,
      by push_cast; omega, by push_cast; omega⟩
  constructor
  · intro hr
    have hg := hguard.mpr fun j hj => (hr j hj).1
    refine ⟨hg.1, hg.2, (check_win_iff b x y 1 1 (hb hg.1 hg.2)).mpr ?_⟩
    intro i hi
    simpa [runPos] using (hr i hi).2
  · rintro ⟨hg1, hg2, hw⟩
    intro i hi
    refine ⟨hguard.mp ⟨hg1, hg2⟩ i hi, ?_⟩
    simpa [runPos] using (check_win_iff b x y 1 1 (hb hg1 hg2)).mp hw i hi

lemma runCells_anti (b : Board) (x y : Nat) (hx : x < b.size.x)
    (hy : y < b.size.y) (hsz : b.size.x * b.size.y < 2 ^ 63) :
    RunCells b x y (-1, 1) ↔
      (y + b.win_len ≤ b.size.y ∧ b.win_len ≤ x + 1 ∧
        b.check_win x y (-1) 1 = true) := by
  obtain ⟨hW, hH⟩ := size_le_area b (by omega) (by omega)
  have hguard : (y + b.win_len ≤ b.size.y ∧ b.win_len ≤ x + 1) ↔
      ∀ j < b.win_len, InB b (runPos x y (-1, 1) j) := by
    unfold InB runPos
    simp only [mul_one, mul_neg, mul_zero, add_zero]
    constructor
    · intro hg j hj
      refine ⟨by push_cast; omega, by push_cast; omega,
        by push_cast; omega, by push_cast; omega⟩
    · intro hin
      rcases Nat.eq_zero_or_pos b.win_len with h0 | hpos
      · omega
      · have h1 := (hin (b.win_len - 1) (by omega)).1
        have h2 := (hin (b.win_len - 1) (by omega)).2.2.2
        push_cast at h1 h2
        omega
  have hb : y + b.win_len ≤ b.size.y → b.win_len ≤ x + 1 →
      ∀ j < b.win_len, 0 ≤ (x : Int) + j * (-1) ∧ (x : Int) + j * (-1) < 2 ^ 64 ∧
        0 ≤ (y : Int) + j * 1 ∧ (y : Int) + j * 1 < 2 ^ 64 := by
    intro hg1 hg2 j hj
    refine ⟨by push_cast; omega, by push_cast; omega,
      by push_cast; omega, by push_cast; omega⟩
  constructor
  · intro hr
    have hg := hguard.mpr fun j hj => (hr j hj).1
    refine ⟨hg.1, hg.2, (check_win_iff b x y (-1) 1 (hb hg.1 hg.2)).mpr ?_⟩
    intro i hi
    simpa [runPos] using (hr i hi).2
  · rintro ⟨hg1, hg2, hw⟩
    intro i hi
    refine ⟨hguard.mp ⟨hg1, hg2⟩ i hi, ?_⟩
    simpa [runPos] using (check_win_iff b x y (-1) 1 (hb hg1 hg2)).mp hw i hi

/-! ## Characterization of `scanCell` -/

lemma scanCell_none_iff (b : Board) (x y : Nat) (hx : x < b.size.x)
    (hy : y < b.size.y) (hsz : b.size.x * b.size.y < 2 ^ 63) :
    scanCell b x y = none ↔
      (¬RunCells b x y (1, 0) ∧ ¬RunCells b x y (0, 1) ∧
        ¬RunCells b x y (1, 1) ∧ ¬RunCells b x y (-1, 1)) := by
  have h10 := runCells_hor b x y hx hy hsz
  have h01 := runCells_ver b x y hx hy hsz
  have h11 := runCells_diag b x y hx hy hsz
  have hm11 := runCells_anti b x y hx hy hsz
  by_cases c1 : x + b.win_len ≤ b.size.x ∧ b.check_win x y 1 0 = true
  · have e : scanCell b x y = some (1, 0) := by
      unfold scanCell; rw [if_pos c1]
    rw [e]
    simp only [reduceCtorEq, false_iff]
    exact fun h => h.1 (h10.mpr c1)
  · by_cases c2 : y + b.win_len ≤ b.size.y
    · by_cases c3 : b.check_win x y 0 1 = true
      · have e : scanCell b x y = some (0, 1) := by
          unfold scanCell; rw [if_neg c1, if_pos c2, if_pos c3]
        rw [e]
        simp only [reduceCtorEq, false_iff]
        exact fun h => h.2.1 (h01.mpr ⟨c2, c3⟩)
      · by_cases c4 : x + b.win_len ≤ b.size.x ∧ b.check_win x y 1 1 = true
        · have e : scanCell b x y = some (1, 1) := by
            unfold scanCell; rw [if_neg c1, if_pos c2, if_neg c3, if_pos c4]
          rw [e]
          simp only [reduceCtorEq, false_iff]
          exact fun h => h.2.2.1 (h11.mpr ⟨c4.1, c2, c4.2⟩)
        · by_cases c5 : b.win_len ≤ x + 1 ∧ b.check_win x y (-1) 1 = true
          · have e : scanCell b x y = some (-1, 1) := by
              unfold scanCell
              rw [if_neg c1, if_pos c2, if_neg c3, if_neg c4, if_pos c5]
            rw [e]
            simp only [reduceCtorEq, false_iff]
            exact fun h => h.2.2.2 (hm11.mpr ⟨c2, c5.1, c5.2⟩)
          · have e : scanCell b x y = none := by
              unfold scanCell
              rw [if_neg c1, if_pos c2, if_neg c3, if_neg c4, if_neg c5]
            rw [e]
            simp only [true_iff]
            refine ⟨fun h => c1 (h10.mp h), fun h => c3 (h01.mp h).2,
              fun h => c4 ⟨(h11.mp h).1, (h11.mp h).2.2⟩,
              fun h => c5 ⟨(hm11.mp h).2.1, (hm11.mp h).2.2⟩⟩
    · have e : scanCell b x y = none := by
        unfold scanCell; rw [if_neg c1, if_neg c2]
      rw [e]
      simp only [true_iff]
      refine ⟨fun h => c1 (h10.mp h), fun h => c2 (h01.mp h).1,
        fun h => c2 (h11.mp h).2.1, fun h => c2 (hm11.mp h).1⟩

lemma scanCell_some_iff (b : Board) (x y : Nat) (hx : x < b.size.x)
    (hy : y < b.size.y) (hsz : b.size.x * b.size.y < 2 ^ 63) (d : Int × Int) :
    scanCell b x y = some d ↔
      ((d = (1, 0) ∧ RunCells b x y (1, 0)) ∨
       (d = (0, 1) ∧ ¬RunCells b x y (1, 0) ∧ RunCells b x y (0, 1)) ∨
       (d = (1, 1) ∧ ¬RunCells b x y (1, 0) ∧ ¬RunCells b x y (0, 1) ∧
         RunCells b x y (1, 1)) ∨
       (d = (-1, 1) ∧ ¬RunCells b x y (1, 0) ∧ ¬RunCells b x y (0, 1) ∧
         ¬RunCells b x y (1, 1) ∧ RunCells b x y (-1, 1))) := by
  have h10 := runCells_hor b x y hx hy hsz
  have h01 := runCells_ver b x y hx hy hsz
  have h11 := runCells_diag b x y hx hy hsz
  have hm11 := runCells_anti b x y hx hy hsz
  by_cases c1 : x + b.win_len ≤ b.size.x ∧ b.check_win x y 1 0 = true
  · have e : scanCell b x y = some (1, 0) := by
      unfold scanCell; rw [if_pos c1]
    rw [e]
    constructor
    · intro h
      exact Or.inl ⟨(Option.some.inj h).symm, h10.mpr c1⟩
    · rintro (⟨rfl, _⟩ | ⟨rfl, hn, _⟩ | ⟨rfl, hn, _⟩ | ⟨rfl, hn, _⟩)
      · rfl
      · exact absurd (h10.mpr c1) hn
      · exact absurd (h10.mpr c1) hn
      · exact absurd (h10.mpr c1) hn
  · by_cases c2 : y + b.win_len ≤ b.size.y
    · by_cases c3 : b.check_win x y 0 1 = true
      · have e : scanCell b x y = some (0, 1) := by
          unfold scanCell; rw [if_neg c1, if_pos c2, if_pos c3]
        rw [e]
        constructor
        · intro h
          exact Or.inr (Or.inl ⟨(Option.some.inj h).symm,
            fun hr => c1 (h10.mp hr), h01.mpr ⟨c2, c3⟩⟩)
        · rintro (⟨rfl, hr⟩ | ⟨rfl, _, _⟩ | ⟨rfl, _, hn, _⟩ | ⟨rfl, _, hn, _⟩)
          · exact absurd (h10.mp hr) c1
          · rfl
          · exact absurd (h01.mpr ⟨c2, c3⟩) hn
          · exact absurd (h01.mpr ⟨c2, c3⟩) hn
      · by_cases c4 : x + b.win_len ≤ b.size.x ∧ b.check_win x y 1 1 = true
        · have e : scanCell b x y = some (1, 1) := by
            unfold scanCell; rw [if_neg c1, if_pos c2, if_neg c3, if_pos c4]
          rw [e]
          constructor
          · intro h
            exact Or.inr (Or.inr (Or.inl ⟨(Option.some.inj h).symm,
              fun hr => c1 (h10.mp hr), fun hr => c3 (h01.mp hr).2,
              h11.mpr ⟨c4.1, c2, c4.2⟩⟩))
          · rintro (⟨rfl, hr⟩ | ⟨rfl, _, hr⟩ | ⟨rfl, _, _, _⟩ |
              ⟨rfl, _, _, hn, _⟩)
            · exact absurd (h10.mp hr) c1
            · exact absurd (h01.mp hr).2 c3
            · rfl
            · exact absurd (h11.mpr ⟨c4.1, c2, c4.2⟩) hn
        · by_cases c5 : b.win_len ≤ x + 1 ∧ b.check_win x y (-1) 1 = true
          · have e : scanCell b x y = some (-1, 1) := by
              unfold scanCell
              rw [if_neg c1, if_pos c2, if_neg c3, if_neg c4, if_pos c5]
            rw [e]
            constructor
            · intro h
              exact Or.inr (Or.inr (Or.inr ⟨(Option.some.inj h).symm,
                fun hr => c1 (h10.mp hr), fun hr => c3 (h01.mp hr).2,
                fun hr => c4 ⟨(h11.mp hr).1, (h11.mp hr).2.2⟩,
                hm11.mpr ⟨c2, c5.1, c5.2⟩⟩))
            · rintro (⟨rfl, hr⟩ | ⟨rfl, _, hr⟩ | ⟨rfl, _, _, hr⟩ |
                ⟨rfl, _, _, _, _⟩)
              · exact absurd (h10.mp hr) c1
              · exact absurd (h01.mp hr).2 c3
              · exact absurd ⟨(h11.mp hr).1, (h11.mp hr).2.2⟩ c4
              · rfl
          · have e : scanCell b x y = none := by
              unfold scanCell
              rw [if_neg c1, if_pos c2, if_neg c3, if_neg c4, if_neg c5]
            rw [e]
            simp only [reduceCtorEq, false_iff]
            rintro (⟨_, hr⟩ | ⟨_, _, hr⟩ | ⟨_, _, _, hr⟩ | ⟨_, _, _, _, hr⟩)
            · exact c1 (h10.mp hr)
            · exact c3 (h01.mp hr).2
            · exact c4 ⟨(h11.mp hr).1, (h11.mp hr).2.2⟩
            · exact c5 ⟨(hm11.mp hr).2.1, (hm11.mp hr).2.2⟩
    · have e : scanCell b x y = none := by
        unfold scanCell; rw [if_neg c1, if_neg c2]
      rw [e]
      simp only [reduceCtorEq, false_iff]
      rintro (⟨_, hr⟩ | ⟨_, _, hr⟩ | ⟨_, _, _, hr⟩ | ⟨_, _, _, _, hr⟩)
      · exact c1 (h10.mp hr)
      · exact c2 (h01.mp hr).1
      · exact c2 (h11.mp hr).2.1
      · exact c2 (hm11.mp hr).1

/-! ## Characterization of the scan (`scanGo`) -/

lemma scanGo_nil (b : Board) (draw : Bool) :
    scanGo b [] draw = (if draw then some Cell.Empty else none, b.win) := rfl

lemma scanGo_cons (b : Board) (px py : Nat) (rest : List (Nat × Nat))
    (draw : Bool) :
    scanGo b ((px, py) :: rest) draw =
      if cellAt b px py = Cell.Empty then scanGo b rest false
      else
        match scanCell b px py with
        | some d => (some (cellAt b px py), some (⟨px, py⟩, d))
        | none => scanGo b rest draw := rfl

lemma scanGo_win_split (b : Board) :
    ∀ (ps : List (Nat × Nat)) (draw : Bool) (c : Cell)
      (w : Option (Coords × (Int × Int))),
      scanGo b ps draw = (some c, w) → c ≠ Cell.Empty →
      ∃ l₁ x y d l₂,
        ps = l₁ ++ (x, y) :: l₂ ∧
        (∀ q ∈ l₁, cellAt b q.1 q.2 = Cell.Empty ∨ scanCell b q.1 q.2 = none) ∧
        cellAt b x y = c ∧ scanCell b x y = some d ∧ w = some (⟨x, y⟩, d)
  | [], draw, c, w => by
      rw [scanGo_nil]
      rcases draw with _ | _
      · intro h
        exact absurd (congrArg Prod.fst h) (by simp)
      · intro h hc
        exact absurd (Option.some.inj (congrArg Prod.fst h)).symm hc
  | (px, py) :: rest, draw, c, w => by
      rw [scanGo_cons]
      by_cases hE : cellAt b px py = Cell.Empty
      · rw [if_pos hE]
        intro h hc
        obtain ⟨l₁, x, y, d, l₂, hsplit, hprev, hcell, hsc, hw⟩ :=
          scanGo_win_split b rest false c w h hc
        exact ⟨(px, py) :: l₁, x, y, d, l₂, by rw [hsplit]; rfl,
          fun q hq => by
            rcases List.mem_cons.mp hq with rfl | hq'
            · exact Or.inl hE
            · exact hprev q hq',
          hcell, hsc, hw⟩
      · rw [if_neg hE]
        cases hsc : scanCell b px py with
        | some d =>
            intro h hc
            have h1 := congrArg Prod.fst h
            have h2 := congrArg Prod.snd h
            simp only at h1 h2
            exact ⟨[], px, py, d, rest, rfl, by simp,
              Option.some.inj h1, hsc, h2.symm⟩
        | none =>
            intro h hc
            obtain ⟨l₁, x, y, d, l₂, hsplit, hprev, hcell, hsc', hw⟩ :=
              scanGo_win_split b rest draw c w h hc
            exact ⟨(px, py) :: l₁, x, y, d, l₂, by rw [hsplit]; rfl,
              fun q hq => by
                rcases List.mem_cons.mp hq with rfl | hq'
                · exact Or.inr hsc
                · exact hprev q hq',
              hcell, hsc', hw⟩

lemma scanGo_draw_iff (b : Board) :
    ∀ (ps : List (Nat × Nat)) (draw : Bool),
      ((scanGo b ps draw).1 = some Cell.Empty ↔
        draw = true ∧ (∀ q ∈ ps, cellAt b q.1 q.2 ≠ Cell.Empty) ∧
          (∀ q ∈ ps, scanCell b q.1 q.2 = none))
  | [], draw => by
      rw [scanGo_nil]
      rcases draw with _ | _ <;> simp
  | (px, py) :: rest, draw => by
      rw [scanGo_cons]
      by_cases hE : cellAt b px py = Cell.Empty
      · rw [if_pos hE]
        rw [scanGo_draw_iff b rest false]
        simp only [List.mem_cons, Bool.false_eq_true, false_and, false_iff]
        rintro ⟨-, hall, -⟩
        exact hall (px, py) (Or.inl rfl) hE
      · rw [if_neg hE]
        cases hsc : scanCell b px py with
        | some d =>
            simp only [List.forall_mem_cons, hsc]
            constructor
            · intro h
              exact absurd (Option.some.inj h) hE
            · rintro ⟨-, -, ⟨h, -⟩⟩
              exact absurd h (by simp)
        | none =>
            rw [scanGo_draw_iff b rest draw]
            simp only [List.forall_mem_cons, hsc]
            constructor
            · rintro ⟨hd, h1, h2⟩
              exact ⟨hd, ⟨hE, h1⟩, ⟨by trivial, h2⟩⟩
            · rintro ⟨hd, ⟨-, h1⟩, ⟨-, h2⟩⟩
              exact ⟨hd, h1, h2⟩

lemma scanGo_win_complete (b : Board) :
    ∀ (ps : List (Nat × Nat)) (draw : Bool) (q : Nat × Nat),
      q ∈ ps → cellAt b q.1 q.2 ≠ Cell.Empty → scanCell b q.1 q.2 ≠ none →
      (scanGo b ps draw).1 ≠ none ∧ (scanGo b ps draw).1 ≠ some Cell.Empty
  | [], _, q => by
      intro hq
      exact absurd hq (List.not_mem_nil q)
  | (px, py) :: rest, draw, q => by
      intro hq h1 h2
      rw [scanGo_cons]
      by_cases hE : cellAt b px py = Cell.Empty
      · rw [if_pos hE]
        rcases List.mem_cons.mp hq with rfl | hq'
        · exact absurd hE h1
        · exact scanGo_win_complete b rest false q hq' h1 h2
      · rw [if_neg hE]
        cases hsc : scanCell b px py with
        | some d => exact ⟨by simp, fun h => hE (Option.some.inj h)⟩
        | none =>
            rcases List.mem_cons.mp hq with rfl | hq'
            · exact absurd hsc h2
            · exact scanGo_win_complete b rest draw q hq' h1 h2

/-! ## The row-major position list -/

lemma mem_rowMajor (w h : Nat) (p : Nat × Nat) :
    p ∈ rowMajor w h ↔ p.1 < w ∧ p.2 < h := by
  unfold rowMajor
  rcases p with ⟨a, c⟩
  simp only [List.mem_flatMap, List.mem_map, List.mem_range, Prod.mk.injEq]
  constructor
  · rintro ⟨y, hy, x, hx, rfl, rfl⟩
    exact ⟨hx, hy⟩
  · rintro ⟨ha, hc⟩
    exact ⟨c, hc, a, ha, rfl, rfl⟩

lemma rowMajor_eq_map (w h : Nat) :
    rowMajor w h = (List.range (w * h)).map (fun i => (i % w, i / w)) := by
  induction h with
  | zero => simp [rowMajor]
  | succ h ih =>
      unfold rowMajor at ih ⊢
      rw [List.range_succ, List.flatMap_append, ih, Nat.mul_succ,
        List.range_add, List.map_append]
      congr 1
      simp only [List.flatMap_cons, List.flatMap_nil, List.append_nil,
        List.map_map]
      refine List.map_congr_left ?_
      intro a ha
      rw [List.mem_range] at ha
      have hw : 0 < w := by omega
      simp only [Function.comp_apply]
      have h1 : (w * h + a) % w = a := by
        rw [Nat.add_comm, Nat.mul_comm, Nat.add_mul_mod_self_right,
          Nat.mod_eq_of_lt ha]
      have h2 : (w * h + a) / w = h := by
        rw [Nat.add_comm, Nat.mul_comm, Nat.add_mul_div_right _ _ hw,
          Nat.div_eq_of_lt ha, Nat.zero_add]
      rw [h1, h2]

lemma rowMajor_split_ranks (w h : Nat)
    (l₁ l₂ : List (Nat × Nat)) (x y : Nat)
    (hsplit : rowMajor w h = l₁ ++ (x, y) :: l₂) :
    (∀ q ∈ l₁, q.1 + q.2 * w < x + y * w) ∧
      (∀ q ∈ l₂, x + y * w < q.1 + q.2 * w) := by
  rw [rowMajor_eq_map] at hsplit
  have hlen : l₁.length + (l₂.length + 1) = w * h := by
    have hc := congrArg List.length hsplit
    simp at hc
    omega
  have hmem : ∀ (j : Nat), j < w * h →
      (l₁ ++ (x, y) :: l₂)[j]? = some (j % w, j / w) := by
    intro j hj
    rw [← hsplit, List.getElem?_map, List.getElem?_range hj]
    rfl
  have hmid : (x, y) = (l₁.length % w, l₁.length / w) := by
    have h1 : (l₁ ++ (x, y) :: l₂)[l₁.length]? = some (x, y) := by
      rw [List.getElem?_append_right (le_refl _)]
      simp
    have h2 := hmem l₁.length (by omega)
    rw [h1] at h2
    exact Option.some.inj h2
  have hrank : x + y * w = l₁.length := by
    have hx := congrArg Prod.fst hmid
    have hy := congrArg Prod.snd hmid
    simp only at hx hy
    rw [hx, hy]
    exact Nat.mod_add_div' l₁.length w
  constructor
  · intro q hq
    obtain ⟨j, hj, hqj⟩ := List.mem_iff_getElem.mp hq
    have h1 : (l₁ ++ (x, y) :: l₂)[j]? = some q := by
      rw [List.getElem?_append_left hj]
      rw [List.getElem?_eq_getElem hj, hqj]
    have h2 := hmem j (by omega)
    rw [h1] at h2
    have hqe := Option.some.inj h2
    have hr : q.1 + q.2 * w = j := by
      rw [hqe]
      exact Nat.mod_add_div' j w
    omega
  · intro q hq
    obtain ⟨j, hj, hqj⟩ := List.mem_iff_getElem.mp hq
    have h1 : (l₁ ++ (x, y) :: l₂)[l₁.length + 1 + j]? = some q := by
      rw [List.getElem?_append_right (by omega)]
      have e : l₁.length + 1 + j - l₁.length = j + 1 := by omega
      rw [e, List.getElem?_cons_succ]
      rw [List.getElem?_eq_getElem hj, hqj]
    have h2 := hmem (l₁.length + 1 + j) (by omega)
    rw [h1] at h2
    have hqe := Option.some.inj h2
    have hr : q.1 + q.2 * w = l₁.length + 1 + j := by
      rw [hqe]
      exact Nat.mod_add_div' _ w
    omega

/-! ## Case analysis of `Board.set` and structural invariants -/

lemma set_of_terminal {b : Board} (c : Cell) (x y : Nat)
    (h : b.state ≠ none) :
    b.set c x y = some (b, Except.error (Error.Msg "game ended")) := by
  unfold Board.set
  rw [if_pos (Option.isSome_iff_ne_none.mpr h)]

lemma set_eq_cases (b : Board) (c : Cell) (x y : Nat) :
    (b.state ≠ none ∧
      b.set c x y = some (b, Except.error (Error.Msg "game ended"))) ∨
    (b.state = none ∧ b.cells.get? (x + y * b.size.x) = none ∧
      b.set c x y = none) ∨
    (b.state = none ∧
      (∃ cv, b.cells.get? (x + y * b.size.x) = some cv ∧ cv ≠ Cell.Empty) ∧
      b.set c x y = some (b, Except.error (Error.Msg "Not empty cell"))) ∨
    (b.state = none ∧ b.cells.get? (x + y * b.size.x) = some Cell.Empty ∧
      b.set c x y = some (setWrite b c x y, Except.ok ())) := by
  by_cases hst : b.state = none
  · cases hg : b.cells.get? (x + y * b.size.x) with
    | none =>
        refine Or.inr (Or.inl ⟨hst, rfl, ?_⟩)
        unfold Board.set
        rw [if_neg (by simp [hst]), hg]
    | some cv =>
        cases cv with
        | Empty =>
            refine Or.inr (Or.inr (Or.inr ⟨hst, rfl, ?_⟩))
            unfold Board.set setWrite
            rw [if_neg (by simp [hst]), hg]
        | Cross =>
            refine Or.inr (Or.inr (Or.inl ⟨hst, ⟨Cell.Cross, rfl, by simp⟩, ?_⟩))
            unfold Board.set
            rw [if_neg (by simp [hst]), hg]
        | Circle =>
            refine Or.inr (Or.inr
              (Or.inl ⟨hst, ⟨Cell.Circle, rfl, by simp⟩, ?_⟩))
            unfold Board.set
            rw [if_neg (by simp [hst]), hg]
  · exact Or.inl ⟨hst, set_of_terminal c x y hst⟩

lemma set_ok_eq {b : Board} {c : Cell} {x y : Nat}
    {p : Board × Except Error Unit} (h : b.set c x y = some p)
    (hok : p.2 = Except.ok ()) :
    b.state = none ∧ b.cells.get? (x + y * b.size.x) = some Cell.Empty ∧
      p.1 = setWrite b c x y := by
  rcases set_eq_cases b c x y with ⟨hst, he⟩ | ⟨hst, hg, he⟩ |
    ⟨hst, hg, he⟩ | ⟨hst, hg, he⟩
  · rw [he] at h
    have hp := Option.some.inj h
    rw [← hp] at hok
    exact absurd hok (by simp)
  · rw [he] at h
    exact absurd h (by simp)
  · rw [he] at h
    have hp := Option.some.inj h
    rw [← hp] at hok
    exact absurd hok (by simp)
  · rw [he] at h
    have hp := Option.some.inj h
    exact ⟨hst, hg, by rw [← hp]⟩

lemma set_err_eq {b : Board} {c : Cell} {x y : Nat}
    {p : Board × Except Error Unit} {e : Error} (h : b.set c x y = some p)
    (herr : p.2 = Except.error e) : p.1 = b := by
  rcases set_eq_cases b c x y with ⟨hst, he⟩ | ⟨hst, hg, he⟩ |
    ⟨hst, hg, he⟩ | ⟨hst, hg, he⟩
  · rw [he] at h
    have hp := Option.some.inj h
    rw [← hp]
  · rw [he] at h
    exact absurd h (by simp)
  · rw [he] at h
    have hp := Option.some.inj h
    rw [← hp]
  · rw [he] at h
    have hp := Option.some.inj h
    rw [← hp] at herr
    exact absurd herr (by simp)

lemma setWrite_fields (b : Board) (c : Cell) (x y : Nat) :
    (setWrite b c x y).size = b.size ∧
    (setWrite b c x y).win_len = b.win_len ∧
    (setWrite b c x y).selected = b.selected ∧
    (setWrite b c x y).cells.length = b.cells.length :=
  ⟨rfl, rfl, rfl, List.length_set b.cells _ c⟩

lemma reachable_wf {b : Board} (h : Reachable b) : WF b := by
  induction h with
  | new hw hh hk hsz =>
      exact ⟨by simp [Board.new], by simpa [Board.new] using hsz,
        by simpa [Board.new] using hw, by simpa [Board.new] using hh,
        by simpa [Board.new] using hk⟩
  | set hr hset ih =>
      rename_i b c x y p
      rcases set_eq_cases b c x y with ⟨hst, he⟩ | ⟨hst, hg, he⟩ |
        ⟨hst, hg, he⟩ | ⟨hst, hg, he⟩
      · rw [he] at hset
        rw [← (Option.some.inj hset)]
        exact ih
      · rw [he] at hset
        exact absurd hset (by simp)
      · rw [he] at hset
        rw [← (Option.some.inj hset)]
        exact ih
      · rw [he] at hset
        rw [← (Option.some.inj hset)]
        obtain ⟨h1, h2, h3, h4⟩ := setWrite_fields b c x y
        exact ⟨by rw [h4, h1]; exact ih.1, by rw [h1]; exact ih.2.1,
          by rw [h1]; exact ih.2.2.1, by rw [h1]; exact ih.2.2.2.1,
          by rw [h2]; exact ih.2.2.2.2⟩
  | restart hr ih =>
      exact ⟨by simp [Board.restart], ih.2.1, ih.2.2.1, ih.2.2.2.1,
        ih.2.2.2.2⟩
  | move hr ih =>
      rename_i b m
      cases m <;> exact ih
  | select hr hx hy ih =>
      exact ih

/-! ## Soundness, completeness and tie-break of `check_state` -/

lemma dirIdx_le_three (d : Int × Int) : dirIdx d ≤ 3 := by
  unfold dirIdx
  split_ifs <;> omega

lemma isRun_origin_bounds {b : Board} {x y : Nat} {d : Int × Int}
    (hK : 0 < b.win_len) (hir : IsRun b x y d) :
    x < b.size.x ∧ y < b.size.y := by
  have h0 := (hir.2.2 0 hK).1
  unfold InB runPos at h0
  simp only [Nat.cast_zero, zero_mul, add_zero] at h0
  exact ⟨by exact_mod_cast h0.2.1, by exact_mod_cast h0.2.2.2⟩

lemma not_isRun_of_scanCell_none {b : Board} {x y : Nat}
    (hx : x < b.size.x) (hy : y < b.size.y)
    (hsz : b.size.x * b.size.y < 2 ^ 63)
    (hn : scanCell b x y = none) : ∀ d, ¬IsRun b x y d := by
  intro d hir
  have h4 := (scanCell_none_iff b x y hx hy hsz).mp hn
  have hd : d = (1, 0) ∨ d = (0, 1) ∨ d = (1, 1) ∨ d = (-1, 1) := by
    simpa [dirList] using hir.1
  rcases hd with rfl | rfl | rfl | rfl
  · exact h4.1 hir.2.2
  · exact h4.2.1 hir.2.2
  · exact h4.2.2.1 hir.2.2
  · exact h4.2.2.2 hir.2.2

lemma check_state_win_full (b : Board)
    (hlen : b.cells.length = b.size.x * b.size.y)
    (hsz : b.size.x * b.size.y < 2 ^ 63) (hK : 0 < b.win_len) {c : Cell}
    (hc : b.check_state.1 = some c) (hcne : c ≠ Cell.Empty) :
    ∃ x y d, b.check_state.2 = some (⟨x, y⟩, d) ∧ cellAt b x y = c ∧
      IsRun b x y d ∧
      ∀ x' y' d', IsRun b x' y' d' →
        scanRank b x y d ≤ scanRank b x' y' d' := by
  have hpair : scanGo b (rowMajor b.size.x b.size.y) true =
      (some c, b.check_state.2) := by
    rw [← hc]
    rfl
  obtain ⟨l₁, x, y, d, l₂, hsplit, hprev, hcell, hsc, hw⟩ :=
    scanGo_win_split b _ true c _ hpair hcne
  have hmem : (x, y) ∈ rowMajor b.size.x b.size.y := by
    rw [hsplit]
    exact List.mem_append_right _ (List.mem_cons_self _ _)
  obtain ⟨hx, hy⟩ := (mem_rowMajor _ _ _).mp hmem
  have hsome := (scanCell_some_iff b x y hx hy hsz d).mp hsc
  have hne : cellAt b x y ≠ Cell.Empty := by
    rw [hcell]; exact hcne
  have hranks := rowMajor_split_ranks b.size.x b.size.y l₁ l₂ x y hsplit
  -- competitor analysis shared by all four direction cases
  have hcompet : ∀ x' y' d', IsRun b x' y' d' →
      ((x', y') = (x, y) ∧ x' = x ∧ y' = y) ∨
        x + y * b.size.x < x' + y' * b.size.x := by
    intro x' y' d' hir'
    obtain ⟨hx', hy'⟩ := isRun_origin_bounds hK hir'
    have hmem' : (x', y') ∈ rowMajor b.size.x b.size.y :=
      (mem_rowMajor _ _ _).mpr ⟨hx', hy'⟩
    rw [hsplit] at hmem'
    rcases List.mem_append.mp hmem' with hin1 | hin2
    · exfalso
      rcases hprev (x', y') hin1 with hE | hN
      · exact hir'.2.1 hE
      · exact not_isRun_of_scanCell_none hx' hy' hsz hN d' hir'
    · rcases List.mem_cons.mp hin2 with heq | hin2'
      · have h1 : x' = x := congrArg Prod.fst heq
        have h2 : y' = y := congrArg Prod.snd heq
        exact Or.inl ⟨heq, h1, h2⟩
      · have := hranks.2 (x', y') hin2'
        exact Or.inr this
  -- package each direction case
  have e10 : dirIdx (1, 0) = 0 := rfl
  have e01 : dirIdx (0, 1) = 1 := rfl
  have e11 : dirIdx (1, 1) = 2 := rfl
  have em11 : dirIdx (-1, 1) = 3 := rfl
  rcases hsome with ⟨rfl, hr⟩ | ⟨rfl, hn10, hr⟩ | ⟨rfl, hn10, hn01, hr⟩ |
    ⟨rfl, hn10, hn01, hn11, hr⟩
  · refine ⟨x, y, (1, 0), hw, hcell, ⟨by simp [dirList], hne, hr⟩, ?_⟩
    intro x' y' d' hir'
    have h3 := dirIdx_le_three d'
    rcases hcompet x' y' d' hir' with ⟨-, rfl, rfl⟩ | hlt
    · unfold scanRank
      omega
    · unfold scanRank
      omega
  · refine ⟨x, y, (0, 1), hw, hcell, ⟨by simp [dirList], hne, hr⟩, ?_⟩
    intro x' y' d' hir'
    have h3 := dirIdx_le_three d'
    rcases hcompet x' y' d' hir' with ⟨-, rfl, rfl⟩ | hlt
    · have hd : d' = (1, 0) ∨ d' = (0, 1) ∨ d' = (1, 1) ∨ d' = (-1, 1) := by
        simpa [dirList] using hir'.1
      rcases hd with rfl | rfl | rfl | rfl
      · exact absurd hir'.2.2 hn10
      · exact le_refl _
      · unfold scanRank
        omega
      · unfold scanRank
        omega
    · unfold scanRank
      omega
  · refine ⟨x, y, (1, 1), hw, hcell, ⟨by simp [dirList], hne, hr⟩, ?_⟩
    intro x' y' d' hir'
    have h3 := dirIdx_le_three d'
    rcases hcompet x' y' d' hir' with ⟨-, rfl, rfl⟩ | hlt
    · have hd : d' = (1, 0) ∨ d' = (0, 1) ∨ d' = (1, 1) ∨ d' = (-1, 1) := by
        simpa [dirList] using hir'.1
      rcases hd with rfl | rfl | rfl | rfl
      · exact absurd hir'.2.2 hn10
      · exact absurd hir'.2.2 hn01
      · exact le_refl _
      · unfold scanRank
        omega
    · unfold scanRank
      omega
  · refine ⟨x, y, (-1, 1), hw, hcell, ⟨by simp [dirList], hne, hr⟩, ?_⟩
    intro x' y' d' hir'
    have h3 := dirIdx_le_three d'
    rcases hcompet x' y' d' hir' with ⟨-, rfl, rfl⟩ | hlt
    · have hd : d' = (1, 0) ∨ d' = (0, 1) ∨ d' = (1, 1) ∨ d' = (-1, 1) := by
        simpa [dirList] using hir'.1
      rcases hd with rfl | rfl | rfl | rfl
      · exact absurd hir'.2.2 hn10
      · exact absurd hir'.2.2 hn01
      · exact absurd hir'.2.2 hn11
      · exact le_refl _
    · unfold scanRank
      omega

lemma check_state_of_isRun (b : Board)
    (hsz : b.size.x * b.size.y < 2 ^ 63) (hK : 0 < b.win_len)
    {x₀ y₀ : Nat} {d₀ : Int × Int} (hir : IsRun b x₀ y₀ d₀) :
    ∃ c, b.check_state.1 = some c ∧ c ≠ Cell.Empty := by
  obtain ⟨hx, hy⟩ := isRun_origin_bounds hK hir
  have hmem : (x₀, y₀) ∈ rowMajor b.size.x b.size.y :=
    (mem_rowMajor _ _ _).mpr ⟨hx, hy⟩
  have hsc : scanCell b x₀ y₀ ≠ none := fun hn =>
    not_isRun_of_scanCell_none hx hy hsz hn d₀ hir
  have hcompl := scanGo_win_complete b (rowMajor b.size.x b.size.y) true
    (x₀, y₀) hmem hir.2.1 hsc
  cases hcs : b.check_state.1 with
  | none => exact absurd hcs hcompl.1
  | some c =>
      refine ⟨c, rfl, fun hce => hcompl.2 ?_⟩
      show b.check_state.1 = some Cell.Empty
      rw [hcs, hce]

lemma reachable_win_sound {b : Board} (h : Reachable b) :
    ∀ c, b.state = some c → c ≠ Cell.Empty → WinSound b c := by
  induction h with
  | new hw hh hk hsz =>
      intro c hc hcne
      exact absurd hc (by simp [Board.new])
  | set hr hset ih =>
      rename_i b c0 x y p
      rcases set_eq_cases b c0 x y with ⟨hst, he⟩ | ⟨hst, hg, he⟩ |
        ⟨hst, hg, he⟩ | ⟨hst, hg, he⟩
      · rw [he] at hset
        rw [← Option.some.inj hset]
        exact ih
      · rw [he] at hset
        exact absurd hset (by simp)
      · rw [he] at hset
        rw [← Option.some.inj hset]
        exact ih
      · rw [he] at hset
        rw [← Option.some.inj hset]
        intro c hc hcne
        have hwf := reachable_wf hr
        have hlen1 : (b.cells.set (x + y * b.size.x) c0).length =
            b.size.x * b.size.y := by
          rw [List.length_set]
          exact hwf.1
        obtain ⟨xw, yw, dw, hw2, hcell, hirun, hmin⟩ :=
          check_state_win_full
            { b with cells := b.cells.set (x + y * b.size.x) c0 }
            hlen1 hwf.2.1
            (by show 0 < b.win_len; have := hwf.2.2.2.2; omega) hc hcne
        exact ⟨⟨xw, yw⟩, dw, hw2, hirun.1, fun i hi =>
          ⟨(hirun.2.2 i hi).1, (hirun.2.2 i hi).2.trans hcell⟩⟩
  | restart hr ih =>
      intro c hc hcne
      exact absurd hc (by simp [Board.restart])
  | move hr ih =>
      rename_i b m
      cases m <;> exact ih
  | select hr hx hy ih =>
      exact ih

lemma reachable_setB {b : Board} (h : Reachable b) (c : Cell) (x y : Nat) :
    Reachable (setB b c x y) := by
  unfold setB
  cases hs : b.set c x y with
  | none => exact h
  | some p => exact Reachable.set h hs

lemma reachable_bTopRow : Reachable bTopRow :=
  reachable_setB (reachable_setB (reachable_setB (reachable_setB
    (reachable_setB
      (Reachable.new (by omega) (by omega) (by omega) (by norm_num))
      Cell.Cross 0 0) Cell.Circle 0 1) Cell.Cross 1 0) Cell.Circle 1 1)
    Cell.Cross 2 0

/-- C1 (win soundness): on every board reachable by legal play, whenever the
cached state reports a win for mark `c`, the stored win segment is
`Some((o, d))` with `d` one of the four scan directions, and the `win_len`
cells `o + i·d` for `i ∈ [0, win_len)` are all inside the `W × H` grid and
all equal to `c`. -/
theorem c1_win_soundness {b : Board} {c : Cell} (hr : Reachable b)
    (hc : b.state = some c) (hcne : c ≠ Cell.Empty) : WinSound b c :=
  reachable_win_sound hr c hc hcne

/-- Witness for C1: a concrete play where Cross completes the top row; the
theorem applies and the win segment is sound. -/
theorem c1_win_soundness_witness :
    bTopRow.state = some Cell.Cross ∧ WinSound bTopRow Cell.Cross :=
  ⟨by decide,
    c1_win_soundness reachable_bTopRow (by decide) (by decide)⟩

/-! ## Claim C2: draw correctness -/

/-- C2 (draw correctness): after any successful placement on a reachable
board, the recomputed state is Draw (`Some(Empty)`) exactly when no cell of
the grid is Empty and no in-bounds run of `win_len` identical non-Empty
marks exists in any of the four scan directions. -/
theorem c2_draw_correctness (b b' : Board) (c : Cell) (x y : Nat)
    (hr : Reachable b) (hset : b.set c x y = some (b', Except.ok ())) :
    (b'.state = some Cell.Empty ↔
      NoEmptyCell b' ∧ ∀ (px py : Nat) (d : Int × Int), ¬IsRun b' px py d) := by
  have hwf := reachable_wf hr
  obtain ⟨hst, hg, hbeq⟩ := set_ok_eq hset rfl
  have hb' : b' = setWrite b c x y := hbeq
  subst hb'
  have hK : 0 < b.win_len := by
    have := hwf.2.2.2.2
    omega
  have hdr := scanGo_draw_iff
    { b with cells := b.cells.set (x + y * b.size.x) c }
    (rowMajor b.size.x b.size.y) true
  constructor
  · intro hdraw
    have hsp : (scanGo { b with cells := b.cells.set (x + y * b.size.x) c }
        (rowMajor b.size.x b.size.y) true).1 = some Cell.Empty := hdraw
    obtain ⟨-, hall, hnone⟩ := hdr.mp hsp
    constructor
    · intro px hpx py hpy
      exact hall (px, py) ((mem_rowMajor _ _ _).mpr ⟨hpx, hpy⟩)
    · intro px py d hir
      have hir1 : IsRun { b with cells := b.cells.set (x + y * b.size.x) c }
          px py d := hir
      obtain ⟨hpx, hpy⟩ :=
        isRun_origin_bounds
          (b := { b with cells := b.cells.set (x + y * b.size.x) c })
          hK hir1
      have hn := hnone (px, py) ((mem_rowMajor _ _ _).mpr ⟨hpx, hpy⟩)
      exact not_isRun_of_scanCell_none
        (b := { b with cells := b.cells.set (x + y * b.size.x) c })
        hpx hpy hwf.2.1 hn d hir1
  · rintro ⟨hne, hnorun⟩
    show (scanGo { b with cells := b.cells.set (x + y * b.size.x) c }
        (rowMajor b.size.x b.size.y) true).1 = some Cell.Empty
    refine hdr.mpr ⟨rfl, ?_, ?_⟩
    · intro q hq
      obtain ⟨h1, h2⟩ := (mem_rowMajor _ _ _).mp hq
      exact hne q.1 h1 q.2 h2
    · intro q hq
      obtain ⟨h1, h2⟩ := (mem_rowMajor _ _ _).mp hq
      have hneq : cellAt { b with cells := b.cells.set (x + y * b.size.x) c }
          q.1 q.2 ≠ Cell.Empty := hne q.1 h1 q.2 h2
      have hnr : ∀ d : Int × Int,
          ¬IsRun { b with cells := b.cells.set (x + y * b.size.x) c }
            q.1 q.2 d := fun d hd => hnorun q.1 q.2 d hd
      refine (scanCell_none_iff
        { b with cells := b.cells.set (x + y * b.size.x) c }
        q.1 q.2 h1 h2 hwf.2.1).mpr
        ⟨fun hrc => hnr (1, 0) ⟨by simp [dirList], hneq, hrc⟩,
         fun hrc => hnr (0, 1) ⟨by simp [dirList], hneq, hrc⟩,
         fun hrc => hnr (1, 1) ⟨by simp [dirList], hneq, hrc⟩,
         fun hrc => hnr (-1, 1) ⟨by simp [dirList], hneq, hrc⟩⟩

/-- Witness for C2: the first placement on a fresh 3×3 board; the theorem
applies, and indeed the state is not Draw (there are Empty cells). -/
theorem c2_draw_correctness_witness :
    Board.set (Board.new 3 3 3) Cell.Cross 0 0 = some (bOcc, Except.ok ()) ∧
      (bOcc.state = some Cell.Empty ↔
        NoEmptyCell bOcc ∧ ∀ (px py : Nat) (d : Int × Int),
          ¬IsRun bOcc px py d) :=
  ⟨by decide,
    c2_draw_correctness (Board.new 3 3 3) bOcc Cell.Cross 0 0
      (Reachable.new (w := 3) (h := 3) (k := 3)
        (by omega) (by omega) (by omega) (by norm_num))
      (by decide)⟩

/-! ## Claim C5: tie-break determinism -/

/-- C5 (tie-break determinism): after a successful placement on a reachable
board, if a winning run exists, the recorded segment is a winning run whose
scan rank — row-major position first, then the fixed direction order
`(1,0), (0,1), (1,1), (-1,1)` — is minimal among all winning runs.  In other
words the scanner records the first cell in row-major order that starts a
winning run, with the first matching direction in the fixed order. -/
theorem c5_tie_break (b b' : Board) (c : Cell) (x y : Nat)
    (hr : Reachable b) (hset : b.set c x y = some (b', Except.ok ()))
    (x₀ y₀ : Nat) (d₀ : Int × Int) (hrun : IsRun b' x₀ y₀ d₀) :
    ∃ xw yw dw, b'.win = some (⟨xw, yw⟩, dw) ∧ IsRun b' xw yw dw ∧
      ∀ x' y' d', IsRun b' x' y' d' →
        scanRank b' xw yw dw ≤ scanRank b' x' y' d' := by
  have hwf := reachable_wf hr
  obtain ⟨hst, hg, hbeq⟩ := set_ok_eq hset rfl
  have hb' : b' = setWrite b c x y := hbeq
  subst hb'
  have hK : 0 < b.win_len := by
    have := hwf.2.2.2.2
    omega
  have hlen1 : (b.cells.set (x + y * b.size.x) c).length =
      b.size.x * b.size.y := by
    rw [List.length_set]
    exact hwf.1
  have hrun1 : IsRun { b with cells := b.cells.set (x + y * b.size.x) c }
      x₀ y₀ d₀ := hrun
  obtain ⟨cw, hcs, hcne⟩ := check_state_of_isRun
    { b with cells := b.cells.set (x + y * b.size.x) c }
    hwf.2.1 hK hrun1
  obtain ⟨xw, yw, dw, hw2, hcell, hirun, hmin⟩ := check_state_win_full
    { b with cells := b.cells.set (x + y * b.size.x) c }
    hlen1 hwf.2.1 hK hcs hcne
  exact ⟨xw, yw, dw, hw2, hirun, fun x' y' d' h => hmin x' y' d' h⟩

/-- Witness for C5: completing the top row of the example play produces a
winning run, and the theorem yields the recorded minimal segment. -/
theorem c5_tie_break_witness :
    Board.set bFour Cell.Cross 2 0 = some (bTopRow, Except.ok ()) ∧
      IsRun bTopRow 0 0 (1, 0) ∧
      (∃ xw yw dw, bTopRow.win = some (⟨xw, yw⟩, dw) ∧
        IsRun bTopRow xw yw dw ∧
        ∀ x' y' d', IsRun bTopRow x' y' d' →
          scanRank bTopRow xw yw dw ≤ scanRank bTopRow x' y' d') :=
  ⟨by decide, by decide,
    c5_tie_break bFour bTopRow Cell.Cross 2 0
      (reachable_setB (reachable_setB (reachable_setB (reachable_setB
        (Reachable.new (w := 3) (h := 3) (k := 3)
          (by omega) (by omega) (by omega) (by norm_num))
        Cell.Cross 0 0) Cell.Circle 0 1) Cell.Cross 1 0) Cell.Circle 1 1)
      (by decide) 0 0 (1, 0) (by decide)⟩

/-! ## Claim C3: terminal stickiness -/

lemma setB_of_terminal {b : Board} (c : Cell) (x y : Nat)
    (h : b.state ≠ none) : setB b c x y = b := by
  unfold setB
  rw [set_of_terminal c x y h]

/-- C3 (terminal stickiness): on every reachable board whose cached state is
terminal, every `set` call — at any coordinates whatsoever — returns the
"game ended" error and leaves the entire board (cells, state, win, selected)
unchanged; consequently any sequence of subsequent `set` calls (no `restart`
in between) leaves the board unchanged. -/
theorem c3_terminal_stickiness {b : Board} (hr : Reachable b)
    (hterm : b.state ≠ none) :
    (∀ (c : Cell) (x y : Nat),
      b.set c x y = some (b, Except.error (Error.Msg "game ended"))) ∧
      ∀ ops : List (Cell × Nat × Nat), foldSetB b ops = b := by
  refine ⟨fun c x y => set_of_terminal c x y hterm, fun ops => ?_⟩
  induction ops with
  | nil => rfl
  | cons o rest ih =>
      unfold foldSetB at ih ⊢
      rw [List.foldl_cons, setB_of_terminal o.1 o.2.1 o.2.2 hterm]
      exact ih

/-- Witness for C3: the finished top-row game; a placement attempt fails
with the "game ended" error and a burst of placements leaves the board
unchanged. -/
theorem c3_terminal_stickiness_witness :
    bTopRow.state ≠ none ∧
      ((∀ (c : Cell) (x y : Nat),
        bTopRow.set c x y =
          some (bTopRow, Except.error (Error.Msg "game ended"))) ∧
        ∀ ops : List (Cell × Nat × Nat), foldSetB bTopRow ops = bTopRow) :=
  ⟨by decide, c3_terminal_stickiness reachable_bTopRow (by decide)⟩

/-! ## Claim C4: contract of `set` -/

lemma flat_index_lt {b : Board} {x y : Nat} (hx : x < b.size.x)
    (hy : y < b.size.y) (hlen : b.cells.length = b.size.x * b.size.y) :
    x + y * b.size.x < b.cells.length := by
  have h3 : (y + 1) * b.size.x = y * b.size.x + b.size.x :=
    Nat.succ_mul y b.size.x
  have h2 : (y + 1) * b.size.x ≤ b.size.y * b.size.x :=
    Nat.mul_le_mul_right _ hy
  have he : b.size.x * b.size.y = b.size.y * b.size.x :=
    Nat.mul_comm _ _
  omega

lemma cellAt_get? {b : Board} {x y : Nat}
    (hid : x + y * b.size.x < b.cells.length) :
    b.cells.get? (x + y * b.size.x) = some (cellAt b x y) := by
  unfold cellAt
  rw [List.get?_eq_getElem?, List.getElem?_eq_getElem hid,
    List.getD_eq_getElem?_getD, List.getElem?_eq_getElem hid]
  rfl

/-- C4 as amended (contract of `set`): with in-bounds `(x, y)`,
`set(cell, x, y)` fails with the error value `Msg("game ended")` when the
cached state is terminal, otherwise fails with `Msg("Not empty cell")`
exactly when the target cell is non-Empty — both errors are of the same
`Msg` kind rather than dedicated kinds, and both leave the board unchanged —
and otherwise it writes `cell` at the flat index of `(x, y)`, keeps the
remaining fields, recomputes the cached state with the scanner (which also
populates `win` when a win occurs), and returns `Ok(())`; the new state is
observable through the `state` field rather than the return value. -/
theorem c4_set_contract {b : Board} (c : Cell) {x y : Nat}
    (hx : x < b.size.x) (hy : y < b.size.y)
    (hlen : b.cells.length = b.size.x * b.size.y) :
    (b.state ≠ none →
      b.set c x y = some (b, Except.error (Error.Msg "game ended"))) ∧
    (b.state = none → cellAt b x y ≠ Cell.Empty →
      b.set c x y = some (b, Except.error (Error.Msg "Not empty cell"))) ∧
    (b.state = none → cellAt b x y = Cell.Empty →
      b.set c x y = some (setWrite b c x y, Except.ok ()) ∧
      (setWrite b c x y).cells = b.cells.set (x + y * b.size.x) c ∧
      (setWrite b c x y).selected = b.selected ∧
      (setWrite b c x y).size = b.size ∧
      (setWrite b c x y).win_len = b.win_len ∧
      (setWrite b c x y).state =
        (Board.check_state
          { b with cells := b.cells.set (x + y * b.size.x) c }).1 ∧
      (setWrite b c x y).win =
        (Board.check_state
          { b with cells := b.cells.set (x + y * b.size.x) c }).2) := by
  have hid := flat_index_lt hx hy hlen
  have hget := cellAt_get? hid
  refine ⟨fun hterm => set_of_terminal c x y hterm, ?_, ?_⟩
  · intro hst hne
    rcases set_eq_cases b c x y with ⟨hst', he⟩ | ⟨hst', hg, he⟩ |
      ⟨hst', hg, he⟩ | ⟨hst', hg, he⟩
    · exact absurd hst hst'
    · rw [hget] at hg
      exact absurd hg (by simp)
    · exact he
    · rw [hget] at hg
      exact absurd (Option.some.inj hg) hne
  · intro hst hemp
    rcases set_eq_cases b c x y with ⟨hst', he⟩ | ⟨hst', hg, he⟩ |
      ⟨hst', hg, he⟩ | ⟨hst', hg, he⟩
    · exact absurd hst hst'
    · rw [hget] at hg
      exact absurd hg (by simp)
    · obtain ⟨cv, hcv, hcvne⟩ := hg
      rw [hget] at hcv
      rw [Option.some.inj hcv] at hemp
      exact absurd hemp hcvne
    · exact ⟨he, rfl, rfl, rfl, rfl, rfl, rfl⟩

/-- Witness for C4: the occupied origin cell of the example board; the
hypotheses of the amended contract hold there and the theorem applies. -/
theorem c4_set_contract_witness :
    (0 < bOcc.size.x ∧ 0 < bOcc.size.y ∧
      bOcc.cells.length = bOcc.size.x * bOcc.size.y) ∧
    (bOcc.state ≠ none →
      bOcc.set Cell.Circle 0 0 =
        some (bOcc, Except.error (Error.Msg "game ended"))) ∧
    (bOcc.state = none → cellAt bOcc 0 0 ≠ Cell.Empty →
      bOcc.set Cell.Circle 0 0 =
        some (bOcc, Except.error (Error.Msg "Not empty cell"))) :=
  ⟨⟨by decide, by decide, by decide⟩,
    (c4_set_contract (b := bOcc) Cell.Circle (x := 0) (y := 0)
      (by decide) (by decide) (by decide)).1,
    fun h1 h2 =>
      ((c4_set_contract (b := bOcc) Cell.Circle (x := 0) (y := 0)
        (by decide) (by decide) (by decide)).2.1 h1 h2)⟩

/-- Counterexample for C4 as stated: the two rejections do not carry the
distinct kinds `CellOccupied` and `GameEnded` — the error type of the
program has no such variants, and both rejections produce values of the
single `Msg` kind; moreover a successful placement returns the unit value
`Ok(())`, not the new terminal state. -/
theorem c4_counterexample :
    Board.set bOcc Cell.Circle 0 0 =
      some (bOcc, Except.error (Error.Msg "Not empty cell")) ∧
    Board.set bTopRow Cell.Circle 2 2 =
      some (bTopRow, Except.error (Error.Msg "game ended")) ∧
    errKind (Error.Msg "Not empty cell") = errKind (Error.Msg "game ended") ∧
    Board.set bFour Cell.Cross 2 0 = some (bTopRow, Except.ok ()) ∧
    bTopRow.state = some Cell.Cross := by
  refine ⟨by decide, by decide, rfl, by decide, by decide⟩

/-! ## Claim C6: cursor clamping -/

lemma coords_ext {p q : Coords} (h1 : p.x = q.x) (h2 : p.y = q.y) : p = q := by
  cases p
  cases q
  simp only [Coords.mk.injEq]
  exact ⟨h1, h2⟩

lemma selInBounds_applyMove {b : Board} (hin : SelInBounds b) (m : MoveOp) :
    SelInBounds (applyMove b m) := by
  obtain ⟨h1, h2⟩ := hin
  cases m
  · exact ⟨h1, by simp only [applyMove, Board.up]; omega⟩
  · exact ⟨h1, by simp only [applyMove, Board.down]; omega⟩
  · exact ⟨by simp only [applyMove, Board.left]; omega, h2⟩
  · exact ⟨by simp only [applyMove, Board.right]; omega, h2⟩

lemma selInBounds_foldMoves {b : Board} (hin : SelInBounds b) :
    ∀ ms : List MoveOp, SelInBounds (List.foldl applyMove b ms) := by
  intro ms
  induction ms generalizing b with
  | nil => exact hin
  | cons m rest ih =>
      rw [List.foldl_cons]
      exact ih (selInBounds_applyMove hin m)

/-- C6 (cursor clamping): starting from an in-bounds cursor, each movement
operation changes the corresponding coordinate by exactly one unless the
cursor is already at that edge of the grid, in which case the cursor is
unchanged (no wrap); consequently every sequence of movement operations
keeps the cursor inside `[0, W) × [0, H)`. -/
theorem c6_cursor_clamping {b : Board} (hin : SelInBounds b) :
    ((b.selected.y = 0 → b.up.selected = b.selected) ∧
      (b.selected.y ≠ 0 →
        b.up.selected = ⟨b.selected.x, b.selected.y - 1⟩)) ∧
    ((b.selected.y = b.size.y - 1 → b.down.selected = b.selected) ∧
      (b.selected.y ≠ b.size.y - 1 →
        b.down.selected = ⟨b.selected.x, b.selected.y + 1⟩)) ∧
    ((b.selected.x = 0 → b.left.selected = b.selected) ∧
      (b.selected.x ≠ 0 →
        b.left.selected = ⟨b.selected.x - 1, b.selected.y⟩)) ∧
    ((b.selected.x = b.size.x - 1 → b.right.selected = b.selected) ∧
      (b.selected.x ≠ b.size.x - 1 →
        b.right.selected = ⟨b.selected.x + 1, b.selected.y⟩)) ∧
    (∀ ms : List MoveOp, SelInBounds (List.foldl applyMove b ms)) := by
  obtain ⟨h1, h2⟩ := hin
  refine ⟨⟨?_, ?_⟩, ⟨?_, ?_⟩, ⟨?_, ?_⟩, ⟨?_, ?_⟩,
    selInBounds_foldMoves ⟨h1, h2⟩⟩
  · intro h
    exact coords_ext rfl (by simp only [Board.up]; omega)
  · intro h
    exact coords_ext rfl rfl
  · intro h
    exact coords_ext rfl (by simp only [Board.down]; omega)
  · intro h
    exact coords_ext rfl (by simp only [Board.down]; omega)
  · intro h
    exact coords_ext (by simp only [Board.left]; omega) rfl
  · intro h
    exact coords_ext rfl rfl
  · intro h
    exact coords_ext (by simp only [Board.right]; omega) rfl
  · intro h
    exact coords_ext (by simp only [Board.right]; omega) rfl

/-- Witness for C6: the fresh 3×3 board with its cursor at the origin. -/
theorem c6_cursor_clamping_witness :
    SelInBounds (Board.new 3 3 3) ∧
      ((Board.new 3 3 3).up.selected = (Board.new 3 3 3).selected ∧
        ∀ ms : List MoveOp,
          SelInBounds (List.foldl applyMove (Board.new 3 3 3) ms)) :=
  ⟨⟨by decide, by decide⟩,
    (c6_cursor_clamping (b := Board.new 3 3 3) ⟨by decide, by decide⟩).1.1
      (by decide),
    (c6_cursor_clamping (b := Board.new 3 3 3) ⟨by decide, by decide⟩).2.2.2.2⟩

/-! ## Claim C7: initial cursor position -/

/-- Counterexample for C7 as stated: `new(3, 3, 3)` does not place the
cursor at the grid centre `(⌊3/2⌋, ⌊3/2⌋) = (1, 1)`. -/
theorem c7_counterexample :
    (Board.new 3 3 3).selected ≠ ⟨3 / 2, 3 / 2⟩ := by decide

/-- C7 as amended: for every `W ≥ 3`, `H ≥ 3`, `K ≥ 3`, the board produced
by `new(W, H, K)` has its cursor at the origin `(0, 0)`, not at the grid
centre. -/
theorem c7_initial_cursor (w h k : Nat) (hw : 3 ≤ w) (hh : 3 ≤ h)
    (hk : 3 ≤ k) : (Board.new w h k).selected = ⟨0, 0⟩ := rfl

/-- Witness for C7: the default 3×3 configuration. -/
theorem c7_initial_cursor_witness :
    3 ≤ 3 ∧ (Board.new 3 3 3).selected = ⟨0, 0⟩ :=
  ⟨by decide, c7_initial_cursor 3 3 3 (by decide) (by decide) (by decide)⟩

/-! ## Claim C8: error taxonomy -/

/-- Counterexample for C8 as stated: the rejection of an occupied-cell
placement and the rejection of a placement after game end are both values of
the `Msg` kind — the error type has no distinct `CellOccupied` and
`GameEnded` kinds. -/
theorem c8_counterexample :
    Board.set bOcc Cell.Cross 0 0 =
      some (bOcc, Except.error (Error.Msg "Not empty cell")) ∧
    Board.set bTopRow Cell.Cross 0 0 =
      some (bTopRow, Except.error (Error.Msg "game ended")) ∧
    errKind (Error.Msg "Not empty cell") = errKind (Error.Msg "game ended") :=
  ⟨by decide, by decide, rfl⟩

/-- C8 as amended: the program's error type consists of exactly the kinds
`IO`, `Msg(text)` and `Exit`; an occupied-cell placement yields the value
`Msg("Not empty cell")` and a placement after game end yields
`Msg("game ended")` — two distinct values of the same `Msg` kind, not two
dedicated kinds. -/
theorem c8_error_taxonomy :
    (∀ e : Error, (∃ ioe, e = Error.Io ioe) ∨ (∃ s, e = Error.Msg s) ∨
      e = Error.Exit) ∧
    (∀ e : Error, errKind e = 0 ∨ errKind e = 1 ∨ errKind e = 2) ∧
    Board.set bOcc Cell.Circle 0 0 =
      some (bOcc, Except.error (Error.Msg "Not empty cell")) ∧
    Board.set bTopRow Cell.Circle 1 1 =
      some (bTopRow, Except.error (Error.Msg "game ended")) ∧
    Error.Msg "Not empty cell" ≠ Error.Msg "game ended" := by
  refine ⟨?_, ?_, by decide, by decide, by decide⟩
  · intro e
    cases e with
    | Io ioe => exact Or.inl ⟨ioe, rfl⟩
    | Msg s => exact Or.inr (Or.inl ⟨s, rfl⟩)
    | Exit => exact Or.inr (Or.inr rfl)
  · intro e
    cases e <;> simp [errKind]

/-! ## Claim C9: turn advancement -/

/-- Counterexample for C9 as stated: on the app about to complete the top
row, `set_selected` returns `Ok(Some(Cross))` — a success — yet the player
is not advanced to `next(Cross) = Circle`; the controller only advances the
turn on `Ok(None)`. -/
theorem c9_counterexample :
    (Board.setSelectedRet aCE.board aCE.player).map Prod.snd =
      some (Except.ok (some Cell.Cross)) ∧
    (App.enterKey aCE).map App.player = some Cell.Cross ∧
    Cell.next Cell.Cross ≠ Cell.Cross :=
  ⟨by decide, by decide, by decide⟩

/-- C9 as amended: when the controller processes Enter it calls
`board.set_selected(player)`; the player is advanced to `next(player)`
exactly on an `Ok(None)` result (placement succeeded, game still in
progress); on `Ok(Some(_))` (the placement ended the game) the score is
updated and the player is unchanged; on `Err(_)` the player and the score
are unchanged. -/
theorem c9_turn_advancement (a a' : App) (h : App.enterKey a = some a') :
    ((a.board.setSelectedRet a.player).map Prod.snd =
        some (Except.ok (none : Option Cell)) →
      a'.player = a.player.next ∧ a'.score = a.score) ∧
    (∀ cw : Cell, (a.board.setSelectedRet a.player).map Prod.snd =
        some (Except.ok (some cw)) → a'.player = a.player) ∧
    (∀ e : Error, (a.board.setSelectedRet a.player).map Prod.snd =
        some (Except.error e) → a'.player = a.player ∧ a'.score = a.score) := by
  unfold App.enterKey at h
  cases hs : a.board.setSelectedRet a.player with
  | none =>
      rw [hs] at h
      exact absurd h (by simp)
  | some pr =>
      rw [hs] at h
      obtain ⟨b2, r⟩ := pr
      refine ⟨?_, ?_, ?_⟩
      · intro hr
        simp only [Option.map_some', Option.some.injEq] at hr
        rw [hr] at h
        simp only at h
        rw [← Option.some.inj h]
        exact ⟨rfl, rfl⟩
      · intro cw hr
        simp only [Option.map_some', Option.some.injEq] at hr
        rw [hr] at h
        cases cw <;>
          · simp only at h
            rw [← Option.some.inj h]
      · intro e hr
        simp only [Option.map_some', Option.some.injEq] at hr
        rw [hr] at h
        simp only at h
        rw [← Option.some.inj h]
        exact ⟨rfl, rfl⟩

/-- Witness for C9: the first Enter on a fresh app places a Cross at the
cursor, the game continues (`Ok(None)`), and the turn passes to Circle. -/
theorem c9_turn_advancement_witness :
    App.enterKey aNew = some aNext ∧
    (Board.setSelectedRet aNew.board aNew.player).map Prod.snd =
      some (Except.ok (none : Option Cell)) ∧
    aNext.player = aNew.player.next :=
  ⟨by decide, by decide,
    ((c9_turn_advancement aNew aNext (by decide)).1 (by decide)).1⟩

/-! ## Claim C10: `set` performs no coordinate validation -/

/-- C10 (implicit, no coordinate validation): on a board whose state is
InProgress, `set(cell, x, y)` never checks `x < W` or `y < H`.  When the
flat index `x + y·W` is within the cell buffer — which can happen with
`x ≥ W` — the call proceeds normally (it succeeds or reports an occupied
cell; there is no out-of-bounds error) and reads/writes the cell at the flat
index; for `x ≥ W > 0` that flat index denotes a row-major coordinate
different from `(x, y)`.  When the flat index reaches past the buffer the
indexing panics, so `set` is total only under `x < W ∧ y < H`. -/
theorem c10_no_validation {b : Board} (c : Cell) (x y : Nat)
    (hst : b.state = none)
    (hlen : b.cells.length = b.size.x * b.size.y) :
    (x + y * b.size.x < b.size.x * b.size.y →
      (b.set c x y = some (setWrite b c x y, Except.ok ()) ∧
        (setWrite b c x y).cells = b.cells.set (x + y * b.size.x) c) ∨
      b.set c x y = some (b, Except.error (Error.Msg "Not empty cell"))) ∧
    (b.size.x ≤ x → 0 < b.size.x →
      ((x + y * b.size.x) % b.size.x, (x + y * b.size.x) / b.size.x) ≠
        (x, y)) ∧
    (b.size.x * b.size.y ≤ x + y * b.size.x → b.set c x y = none) ∧
    (x < b.size.x → y < b.size.y → b.set c x y ≠ none) := by
  refine ⟨?_, ?_, ?_, ?_⟩
  · intro hid
    rcases set_eq_cases b c x y with ⟨hst', he⟩ | ⟨hst', hg, he⟩ |
      ⟨hst', hg, he⟩ | ⟨hst', hg, he⟩
    · exact absurd hst hst'
    · have hn := List.get?_eq_none.mp hg
      omega
    · exact Or.inr he
    · exact Or.inl ⟨he, rfl⟩
  · intro hxw hw heq
    have hdiv : (x + y * b.size.x) / b.size.x = x / b.size.x + y :=
      Nat.add_mul_div_right x y hw
    have hx1 : 1 ≤ x / b.size.x := (Nat.one_le_div_iff hw).mpr hxw
    have hy := congrArg Prod.snd heq
    simp only at hy
    omega
  · intro hid
    rcases set_eq_cases b c x y with ⟨hst', he⟩ | ⟨hst', hg, he⟩ |
      ⟨hst', hg, he⟩ | ⟨hst', hg, he⟩
    · exact absurd hst hst'
    · exact he
    · obtain ⟨cv, hcv, -⟩ := hg
      have hn : b.cells.get? (x + y * b.size.x) = none :=
        List.get?_eq_none.mpr (by omega)
      rw [hn] at hcv
      exact absurd hcv (by simp)
    · have hn : b.cells.get? (x + y * b.size.x) = none :=
        List.get?_eq_none.mpr (by omega)
      rw [hn] at hg
      exact absurd hg (by simp)
  · intro hx hy
    have hid := flat_index_lt hx hy hlen
    rcases set_eq_cases b c x y with ⟨hst', he⟩ | ⟨hst', hg, he⟩ |
      ⟨hst', hg, he⟩ | ⟨hst', hg, he⟩
    · exact absurd hst hst'
    · have hn := List.get?_eq_none.mp hg
      omega
    · rw [he]
      simp
    · rw [he]
      simp

/-- Witness for C10: on the fresh 3×3 board, `set` at the out-of-range
column `x = 4` (flat index `4 < 9`) succeeds and writes flat index 4 — the
cell `(1, 1)` —, while `x = 9` (flat index `9 ≥ 9`) panics; in-bounds
coordinates never panic. -/
theorem c10_no_validation_witness :
    ((Board.new 3 3 3).state = none ∧
      (Board.new 3 3 3).cells.length = 9 ∧
      (setB (Board.new 3 3 3) Cell.Cross 4 0).cells.get? 4 =
        some Cell.Cross) ∧
    Board.set (Board.new 3 3 3) Cell.Cross 4 0 =
      some (setWrite (Board.new 3 3 3) Cell.Cross 4 0, Except.ok ()) ∧
    ((4 + 0 * 3) % 3, (4 + 0 * 3) / 3) ≠ (4, 0) ∧
    Board.set (Board.new 3 3 3) Cell.Cross 9 0 = none := by
  refine ⟨⟨by decide, by decide, by decide⟩, ?_, ?_, ?_⟩
  · rcases (c10_no_validation (b := Board.new 3 3 3) Cell.Cross 4 0
        (by decide) (by decide)).1 (by decide) with ⟨h1, -⟩ | h2
    · exact h1
    · exact absurd h2 (by decide)
  · exact (c10_no_validation (b := Board.new 3 3 3) Cell.Cross 4 0
      (by decide) (by decide)).2.1 (by decide) (by decide)
  · exact (c10_no_validation (b := Board.new 3 3 3) Cell.Cross 9 0
      (by decide) (by decide)).2.2.1 (by decide)
